import Mathlib

/-!
Verification of turbo_chopper.py (dumpydog212/turbochopper) against its
natural-language specification.

The script converts one parsed HTML document into a set of XML "topic"
trees, one per accepted top-level heading.  The shallow embedding below
models the parsed document as a tree of element / text / comment nodes
(the three node kinds the script distinguishes via bs4's Tag,
NavigableString and Comment classes), and each step of `main` and of the
`ChoppedH1` class as a pure function.  File writing, printing and path
handling are out of scope (the spec declares them incidental glue).

Library behaviour embedded from its documented semantics:
  * bs4 `Tag.string`: the unique string of a single-child chain, else None;
  * bs4 `PageElement.next_elements`: the strict suffix of the preorder
    (document-order) traversal of the whole soup after the given node;
  * bs4 `soup.find_all(t)`: all nodes of tag t in document order;
  * Python `str.strip` / `str.isspace` (ASCII whitespace set);
  * python-slugify `slugify(s, separator = "_")`, modelled from the spec
    (section 4.5): trim, lowercase, replace runs of non-alphanumeric
    characters by one underscore, strip edge separators.
-/

/-- Characters of Python's ASCII whitespace set (str.strip / str.isspace). -/
def pyWhitespaceChar (c : Char) : Bool :=
  c == ' ' || c == '\t' || c == '\n' || c == '\r' || c == '\x0b' || c == '\x0c'

/-- Python str.strip(): remove leading and trailing whitespace. -/
def pyStrip (s : String) : String :=
  String.mk (((s.data.dropWhile pyWhitespaceChar).reverse.dropWhile pyWhitespaceChar).reverse)

/-- Python str.isspace(): nonempty and every character is whitespace.
Note that the empty string is NOT whitespace-only in Python. -/
def pyIsSpace (s : String) : Bool :=
  !s.data.isEmpty && s.data.all pyWhitespaceChar

/-- Characters kept by the slug function: letters and digits. -/
def slugChar (c : Char) : Bool := c.isAlpha || c.isDigit

/-- Worker for `slugify`: splits the input into maximal alphanumeric runs
(lowercased); `cur` is the current run, reversed. -/
def slugWords : List Char → List Char → List String
  | [], cur => if cur.isEmpty then [] else [String.mk cur.reverse]
  | c :: rest, cur =>
    if slugChar c then slugWords rest (c.toLower :: cur)
    else if cur.isEmpty then slugWords rest []
    else String.mk cur.reverse :: slugWords rest []

/-- Modelled from the spec (section 4.5): the external python-slugify
library with separator "_": lowercase, replace runs of non-alphanumeric
characters with one underscore, no leading or trailing separators. -/
def slugify (s : String) : String := String.intercalate "_" (slugWords s.data [])

/-- Python format {:05d}: the decimal digits zero-padded to width 5. -/
def pad5 (n : Nat) : String :=
  let s := toString n
  String.mk (List.replicate (5 - s.length) '0') ++ s

mutual
/-- A node of the parsed document: bs4 Tag (element with a tag name,
attributes in insertion order, ordered children), NavigableString (text),
or Comment. -/
inductive Node where
  | element (tag : String) (attrs : List (String × String)) (children : Forest)
  | text (s : String)
  | comment (s : String)
/-- An ordered sequence of sibling nodes. -/
inductive Forest where
  | nil
  | cons (hd : Node) (tl : Forest)
end

def Forest.toList : Forest → List Node
  | .nil => []
  | .cons h t => h :: Forest.toList t

def Forest.append : Forest → Forest → Forest
  | .nil, ys => ys
  | .cons x xs, ys => .cons x (Forest.append xs ys)

/-- bs4 `.name`: the tag name of an element; None for strings and comments
(the script counts string children under the key None). -/
def Node.name : Node → Option String
  | .element t _ _ => some t
  | _ => none

/-- bs4 `.string`: a text or comment node is its own string; an element
with exactly one child has that child's string; any other element has
None. -/
def Node.string : Node → Option String
  | .text s => some s
  | .comment s => some s
  | .element _ _ cs =>
    match cs with
    | .cons c .nil => Node.string c
    | _ => none

/-- Python `type(x) == Tag`. -/
def isTagNode : Node → Bool
  | .element _ _ _ => true
  | _ => false

/-- Python `type(x) == Comment`. -/
def isCommentNode : Node → Bool
  | .comment _ => true
  | _ => false

mutual
/-- Preorder (document-order) traversal of a subtree: the node itself,
then the traversals of its children in order. -/
def flattenNode : Node → List Node
  | .element t a cs => .element t a cs :: flattenForest cs
  | x => [x]
/-- Preorder traversal of a forest of sibling subtrees. -/
def flattenForest : Forest → List Node
  | .nil => []
  | .cons c cs => flattenNode c ++ flattenForest cs
end

/-- Document order of the whole soup: the preorder traversal of its
top-level nodes. -/
def docOrder (roots : Forest) : List Node := flattenForest roots

/-- The node at position i of the document-order traversal. -/
def nodeAt (roots : Forest) (i : Nat) : Node := (docOrder roots).getD i (Node.text "")

/-- bs4 `x.next_elements` for the node at document-order position i: every
node strictly after it in document order (its own descendants first, then
everything following, to the end of the document). -/
def nextElems (roots : Forest) (i : Nat) : List Node := (docOrder roots).drop (i + 1)

/-- bs4 `soup.find_all(t)`: all elements of tag t, in document order. -/
def findAllTag (t : String) (roots : Forest) : List Node :=
  (docOrder roots).filter (fun n => Node.name n == some t)

def countTag (t : String) (roots : Forest) : Nat := (findAllTag t roots).length

mutual
/-- Renaming pass of `main` (lines 215-220): every element whose tag is
`old` gets tag `new`; attributes and children are untouched.  This is
`soup.find_all(old)` followed by assigning `.name` on each hit (the hits
include nested occurrences, and renaming is in place). -/
def renameAll (old new : String) : Node → Node
  | .element t a cs => .element (if t == old then new else t) a (renameAllForest old new cs)
  | x => x
def renameAllForest (old new : String) : Forest → Forest
  | .nil => .nil
  | .cons c cs => .cons (renameAll old new c) (renameAllForest old new cs)
end

/-- The `promote_these` list of `main`. -/
def promoteThese : List String := ["h2", "h3", "h4", "h5"]

/-- The promotion loop of `main`: for each tag of `promote_these` in
order, rename every element carrying it to h1. -/
def promoteAll (roots : Forest) : Forest :=
  promoteThese.foldl (fun acc t => renameAllForest t "h1" acc) roots

mutual
/-- Spec side (section 4.2): one simultaneous pass rewriting every
subordinate-heading tag to the top-level heading tag, preserving all
attributes, content and position. -/
def normalizeSpec : Node → Node
  | .element t a cs =>
    .element (if promoteThese.contains t then "h1" else t) a (normalizeSpecForest cs)
  | x => x
def normalizeSpecForest : Forest → Forest
  | .nil => .nil
  | .cons c cs => .cons (normalizeSpec c) (normalizeSpecForest cs)
end

mutual
/-- Tag erasure: two trees with equal `shapeOf` agree on everything
(attributes, text content, child structure, position) except tag names. -/
def shapeOf : Node → Node
  | .element _ a cs => .element "" a (shapeOfForest cs)
  | x => x
def shapeOfForest : Forest → Forest
  | .nil => .nil
  | .cons c cs => .cons (shapeOf c) (shapeOfForest cs)
end

/-- Concatenated text of all text descendants (claim side, for headings
with mixed content). -/
def descendantText (n : Node) : String :=
  String.join ((flattenNode n).filterMap (fun m =>
    match m with
    | .text s => some s
    | _ => none))

/-- A tag-name-to-count mapping in insertion order (a Python dict; the key
is `.name`, which is None for string children). -/
abbrev Tally := List (Option String × Nat)

/-- ChoppedH1._count_this_tag: bump the entry, inserting it at the end on
KeyError. -/
def countThisTag (d : Tally) (nm : Option String) : Tally :=
  if d.any (fun kv => kv.fst == nm) then
    d.map (fun kv => if kv.fst == nm then (kv.fst, kv.snd + 1) else kv)
  else d ++ [(nm, 1)]

/-- The count a tally holds for a key (0 when absent). -/
def tallyGet (d : Tally) (nm : Option String) : Nat :=
  match d.find? (fun kv => kv.fst == nm) with
  | some kv => kv.snd
  | none => 0

/-- ElementStatisticsClass: the process-wide counters. -/
structure Stats where
  element_count : Nat
  parsed_tag_count : Nat
  invalid_tag_count : Nat
  valid_tag_dict : Tally
  invalid_tag_dict : Tally

def initStats : Stats := ⟨0, 0, 0, [], []⟩

def VALID_ELEMENTS : List String := ["p"]

def XMLNS_DITAARCH : String := "http://dita.oasis-open.org/architecture/2005/"

/-- Python `this_element.name not in VALID_ELEMENTS`, negated: a None name
is never in the list. -/
def nameInValid (nm : Option String) : Bool :=
  match nm with
  | some t => VALID_ELEMENTS.contains t
  | none => false

/-- The abort conditions of the script, each a fatal `exit` or an uncaught
Python exception: `indexError` stands for an IndexError on a list access
([0], [1] on the top-level node list; h1_strings[0] when no title exists),
`structural` for the "Unexpected xml structure!" exit, `bodyMissing` for
the TypeError of `len(the_html.body)` when no body tag exists,
`attrError` for the AttributeError of `.string.strip()` on a None string,
and `unexpectedTag` for the "Unexpected tag received!" exit. -/
inductive RunError where
  | indexError
  | structural
  | bodyMissing
  | attrError
  | unexpectedTag

/-- The per-heading output of the script: ChoppedH1's fields (the
serialized soup is the `topic` tree; file writing is out of scope). -/
structure ChoppedH1 where
  string : String
  slug : String
  index : Nat
  topic : Node

/-- bs4 `new_tag(t)` followed by `.string = s`: one element with a single
text child. -/
def newTagWithString (tag s : String) : Node :=
  .element tag [] (.cons (.text s) .nil)

/-- bs4 `tag[k] = v`: replace the attribute when the key exists, else
append it. -/
def setAttr : Node → String → String → Node
  | .element t a cs, k, v =>
    .element t
      (if a.any (fun kv => kv.fst == k) then
        a.map (fun kv => if kv.fst == k then (k, v) else kv)
      else a ++ [(k, v)]) cs
  | n, _, _ => n

/-- bs4 `parent.append(child)`. -/
def appendChild : Node → Node → Node
  | .element t a cs, c => .element t a (Forest.append cs (.cons c .nil))
  | n, _ => n

/-- ChoppedH1.__init__ lines 112-135: the fixed topic skeleton, built by
the same sequence of attribute assignments and appends as the code (the
author tag is appended into the prolog after the prolog is created; the
final tree is the same whether the prolog is appended to the topic before
or after receiving the author child). -/
def mkTopicTree (index : Nat) (titleText : String) : Node :=
  let theTopic := Node.element "topic" [] .nil
  let theTopic := setAttr theTopic "id" ("tbd__" ++ pad5 index)
  let theTopic := setAttr theTopic "xmlns:ditaarch" XMLNS_DITAARCH
  let theTopic := appendChild theTopic (newTagWithString "title" titleText)
  let theTopic := appendChild theTopic (newTagWithString "shortdesc" "")
  let prologTag := Node.element "prolog" [] .nil
  let prologTag := appendChild prologTag (newTagWithString "author" "TurboChopper!")
  let theTopic := appendChild theTopic prologTag
  appendChild theTopic (Node.element "body" [] .nil)

/-- ChoppedH1.__init__: `self.string = h1_tag.string.strip()` (None would
raise AttributeError, modelled as `none`), `self.slug = slugify(string)`,
and the topic skeleton.  The body tag is the last child of the topic. -/
def mkChoppedH1 (h1Tag : Node) (index : Nat) : Option ChoppedH1 :=
  match Node.string h1Tag with
  | none => none
  | some s =>
    let str := pyStrip s
    some { string := str, slug := slugify str, index := index,
           topic := mkTopicTree index str }

/-- Append a node into the last tree of a forest (the body tag is the last
child of the topic tree, and `body_tag.append` mutates it in place). -/
def appendLastChild : Forest → Node → Forest
  | .nil, _ => .nil
  | .cons b .nil, el => .cons (appendChild b el) .nil
  | .cons x xs, el => .cons x (appendLastChild xs el)

/-- Python `self.body_tag.append(el)`. -/
def ChoppedH1.appendBody (c : ChoppedH1) (el : Node) : ChoppedH1 :=
  { c with
    topic :=
      match c.topic with
      | .element t a cs => .element t a (appendLastChild cs el)
      | n => n }

/-- The child loop of add_this_element (lines 164-168): walk the immediate
children; a child whose string is None is skipped, any other child
contributes its stripped string and bumps the valid tally under its own
name. -/
def childLoop (d : Tally) : Forest → Tally × List String
  | .nil => (d, [])
  | .cons ch rest =>
    match Node.string ch with
    | none => childLoop d rest
    | some s =>
      let d1 := countThisTag d (Node.name ch)
      let (d2, strs) := childLoop d1 rest
      (d2, pyStrip s :: strs)

/-- ChoppedH1.add_this_element (lines 147-180). -/
def addThisElement (stats : Stats) (c : ChoppedH1) (el : Node) :
    Except RunError (Stats × ChoppedH1) :=
  let stats1 := { stats with element_count := stats.element_count + 1 }
  if !(nameInValid (Node.name el)) then
    .ok ({ stats1 with
           invalid_tag_count := stats1.invalid_tag_count + 1,
           invalid_tag_dict := countThisTag stats1.invalid_tag_dict (Node.name el) }, c)
  else
    let stats2 := { stats1 with
                    parsed_tag_count := stats1.parsed_tag_count + 1,
                    valid_tag_dict := countThisTag stats1.valid_tag_dict (Node.name el) }
    match el with
    | .element t _ children =>
      if t == "p" then
        let (d, strs) := childLoop stats2.valid_tag_dict children
        let addThisTag := newTagWithString "p" (String.intercalate " " strs)
        .ok ({ stats2 with valid_tag_dict := d }, c.appendBody addThisTag)
      else .error .unexpectedTag
    | _ => .error .unexpectedTag

/-- The inner span loop of `main` (lines 266-278): walk next_elements,
skip non-Tag nodes, stop at the first h1 element, feed every other
element to add_this_element. -/
def innerLoop : Stats → ChoppedH1 → List Node → Except RunError (Stats × ChoppedH1)
  | stats, c, [] => .ok (stats, c)
  | stats, c, el :: rest =>
    if !(isTagNode el) then innerLoop stats c rest
    else if Node.name el == some "h1" then .ok (stats, c)
    else
      match addThisElement stats c el with
      | .error e => .error e
      | .ok (s2, c2) => innerLoop s2 c2 rest

/-- The list of nodes the inner span loop feeds to add_this_element: the
element-kind nodes before the first h1 element. -/
def spanOf : List Node → List Node
  | [] => []
  | el :: rest =>
    if !(isTagNode el) then spanOf rest
    else if Node.name el == some "h1" then []
    else el :: spanOf rest

/-- Folding add_this_element over an already-selected span. -/
def processSpan : Stats → ChoppedH1 → List Node → Except RunError (Stats × ChoppedH1)
  | stats, c, [] => .ok (stats, c)
  | stats, c, el :: rest =>
    match addThisElement stats c el with
    | .error e => .error e
    | .ok (s2, c2) => processSpan s2 c2 rest

/-- The h1_strings loop of `main` (lines 227-233): skip headings whose
string is None or whitespace-only; keep the stripped string. -/
def h1StringsLoop : List Node → List String
  | [] => []
  | h :: rest =>
    match Node.string h with
    | none => h1StringsLoop rest
    | some s =>
      if !(pyIsSpace s) then pyStrip s :: h1StringsLoop rest
      else h1StringsLoop rest

/-- Line 241, `doc_title = slugify(h1_strings[0], separator = "_")`: none
when h1_strings is empty (the IndexError abort). -/
def docTitleOf (h1s : List Node) : Option String :=
  (h1StringsLoop h1s).head?.map (fun s => slugify s)

/-- The chopping loop of `main` (lines 245-281), iterating the document
positions of the h1 elements: skip a heading whose string is None,
whitespace-only, or whose slug equals the document title; otherwise bump
the running index, build a ChoppedH1 and walk its span. -/
def chopLoop (roots : Forest) (docTitle : String) :
    Stats → Nat → List Nat → Except RunError (Stats × List ChoppedH1)
  | stats, _, [] => .ok (stats, [])
  | stats, idx, i :: rest =>
    let thisH1 := nodeAt roots i
    match Node.string thisH1 with
    | none => chopLoop roots docTitle stats idx rest
    | some s =>
      if pyIsSpace s || (slugify s == docTitle) then
        chopLoop roots docTitle stats idx rest
      else
        match mkChoppedH1 thisH1 (idx + 1) with
        | none => .error .attrError
        | some ct =>
          match innerLoop stats ct (nextElems roots i) with
          | .error e => .error e
          | .ok (s2, c2) =>
            match chopLoop roots docTitle s2 (idx + 1) rest with
            | .error e => .error e
            | .ok (s3, cs) => .ok (s3, c2 :: cs)

/-- Document-order positions of the h1 elements ( `the_h1s`, line 222, as
positions into the preorder traversal so that next_elements is the suffix
after each one). -/
def h1Positions (roots : Forest) : List Nat :=
  (List.range (docOrder roots).length).filter
    (fun i => Node.name (nodeAt roots i) == some "h1")

/-- bs4 `tag.body`: the first body element among the descendants. -/
def findBody (n : Node) : Option Node :=
  match n with
  | .element _ _ cs => (flattenForest cs).find? (fun m => Node.name m == some "body")
  | _ => none

def DUPLICATES_TRIGGERS_ERROR : Bool := false

/-- The pipeline of `main` after the structural check (lines 208-281):
read the_html = list[1], crash if it has no body tag (line 211,
len of None), promote the subordinate headings, collect h1 strings,
derive the document title (IndexError when none exists; the
DUPLICATES_TRIGGERS_ERROR block is off), then run the chopping loop.
Directory creation and file writing are out of scope. -/
def afterStructureCheck (roots : Forest) :
    Except RunError (String × Stats × List ChoppedH1) :=
  match (Forest.toList roots).get? 1 with
  | none => .error .indexError
  | some theHtml =>
    match findBody theHtml with
    | none => .error .bodyMissing
    | some _ =>
      let promoted := promoteAll roots
      let h1s := findAllTag "h1" promoted
      let h1Strs := h1StringsLoop h1s
      match h1Strs.head? with
      | none => .error .indexError
      | some first =>
        let docTitle := slugify first
        match chopLoop promoted docTitle initStats 0 (h1Positions promoted) with
        | .error e => .error e
        | .ok (st, cs) => .ok (docTitle, st, cs)

/-- Lines 198-209 of `main`: read the first two top-level parsed nodes
(an IndexError when fewer exist), require [comment, element] exactly,
else print "Unexpected xml structure!" and exit; on success the run
proceeds with the rest of the pipeline. -/
def runChop (roots : Forest) : Except RunError (String × Stats × List ChoppedH1) :=
  match (Forest.toList roots).get? 0 with
  | none => .error .indexError
  | some n0 =>
    match (Forest.toList roots).get? 1 with
    | none => .error .indexError
    | some n1 =>
      if isCommentNode n0 && isTagNode n1 then afterStructureCheck roots
      else .error .structural

/-- Spec side (section 4.3 step 3): a heading is accepted iff it has
text, the text is not whitespace-only, and its normalized slug differs
from the document title slug. -/
def specAccepts (docTitle : String) (h : Node) : Bool :=
  match Node.string h with
  | none => false
  | some s => !(pyIsSpace s) && !(slugify s == docTitle)

/-- Spec side (section 4.3 step 4): the span is every element-kind node
of the forward document-order traversal, up to but not including the
first top-level-heading element. -/
def specSpanOf (l : List Node) : List Node :=
  (l.filter (fun n => isTagNode n)).takeWhile (fun n => !(Node.name n == some "h1"))

/-- The text a heading carries (empty when its string is None). -/
def textOf (h : Node) : String := (Node.string h).getD ""

/-- Spec side (section 4.3 step 2): the first heading whose text is
present and not whitespace-only. -/
def firstNonBlankHeading (h1s : List Node) : Option Node :=
  h1s.find? (fun h => ((Node.string h).map (fun s => !(pyIsSpace s))).getD false)

/-- A fresh statistics record, for concrete runs. -/
def exStats : Stats := initStats

/-- A concrete ChoppedH1, for concrete runs of the element loop. -/
def exChopped : ChoppedH1 :=
  { string := "Example", slug := "example", index := 1, topic := mkTopicTree 1 "Example" }

/-- A concrete heading with surrounding whitespace in its text. -/
def exTitleHeading : Node :=
  Node.element "h1" [] (Forest.cons (Node.text "  Setup  ") Forest.nil)

/-- A concrete heading with mixed content: its bs4 string is None even
though its descendants carry non-blank text. -/
def exMixedHeading : Node :=
  Node.element "h1" []
    (Forest.cons (Node.text "Mixed ")
      (Forest.cons (Node.element "b" [] (Forest.cons (Node.text "bold") Forest.nil))
        Forest.nil))

/-- A one-node document whose only top-level node is the mixed heading. -/
def exMixedDoc : Forest := Forest.cons exMixedHeading Forest.nil

/-- A concrete three-node document: h1, p, h1. -/
def exDoc1 : Forest :=
  Forest.cons (Node.element "h1" [] (Forest.cons (Node.text "Title") Forest.nil))
    (Forest.cons (Node.element "p" [] (Forest.cons (Node.text "Step one.") Forest.nil))
      (Forest.cons (Node.element "h1" [] (Forest.cons (Node.text "Next") Forest.nil))
        Forest.nil))

theorem slugChar_false_of_ws (c : Char) (h : pyWhitespaceChar c = true) :
    slugChar c = false := by
  simp only [pyWhitespaceChar, Bool.or_eq_true, beq_iff_eq] at h
  rcases h with ((((h | h) | h) | h) | h) | h <;> subst h <;> decide

theorem slugWords_nil_of_nonslug (ws : List Char)
    (h : ∀ c ∈ ws, slugChar c = false) : slugWords ws [] = [] := by
  induction ws with
  | nil => rfl
  | cons c rest ih =>
    have hc : slugChar c = false := h c (List.mem_cons_self c rest)
    simp [slugWords, hc, ih (fun x hx => h x (List.mem_cons_of_mem c hx))]

theorem slugWords_all_nonslug (ws : List Char)
    (h : ∀ c ∈ ws, slugChar c = false) (cur : List Char) :
    slugWords ws cur = slugWords [] cur := by
  cases ws with
  | nil => rfl
  | cons c rest =>
    have hc : slugChar c = false := h c (List.mem_cons_self c rest)
    have hb : slugWords rest [] = [] :=
      slugWords_nil_of_nonslug rest (fun x hx => h x (List.mem_cons_of_mem c hx))
    by_cases hcur : cur.isEmpty <;> simp [slugWords, hc, hcur, hb]

theorem slugWords_append_left (ws l : List Char)
    (h : ∀ c ∈ ws, slugChar c = false) :
    slugWords (ws ++ l) [] = slugWords l [] := by
  induction ws with
  | nil => rfl
  | cons c rest ih =>
    have hc : slugChar c = false := h c (List.mem_cons_self c rest)
    simp [slugWords, hc, ih (fun x hx => h x (List.mem_cons_of_mem c hx))]

theorem slugWords_append_right (l ws : List Char)
    (h : ∀ c ∈ ws, slugChar c = false) :
    ∀ cur, slugWords (l ++ ws) cur = slugWords l cur := by
  induction l with
  | nil => intro cur; simpa using slugWords_all_nonslug ws h cur
  | cons x rest ih =>
    intro cur
    by_cases hx : slugChar x <;> by_cases hcur : cur.isEmpty <;>
      simp [slugWords, hx, hcur, ih]

/-- Trimming first does not change the slug: the slug function already
ignores edge whitespace. -/
theorem slugify_pyStrip (s : String) : slugify (pyStrip s) = slugify s := by
  unfold slugify pyStrip
  set p := pyWhitespaceChar with hp
  set l := s.data with hl
  have hdec1 : l.takeWhile p ++ l.dropWhile p = l :=
    List.takeWhile_append_dropWhile p l
  set m := l.dropWhile p with hm
  have hdec2 : m.reverse.takeWhile p ++ m.reverse.dropWhile p = m.reverse :=
    List.takeWhile_append_dropWhile p m.reverse
  have hm2 : m = (m.reverse.dropWhile p).reverse ++ (m.reverse.takeWhile p).reverse := by
    have h3 := congrArg List.reverse hdec2
    rw [List.reverse_append, List.reverse_reverse] at h3
    exact h3.symm
  have hws1 : ∀ c ∈ l.takeWhile p, slugChar c = false := fun c hc =>
    slugChar_false_of_ws c (List.mem_takeWhile_imp hc)
  have hws2 : ∀ c ∈ (m.reverse.takeWhile p).reverse, slugChar c = false := fun c hc =>
    slugChar_false_of_ws c (List.mem_takeWhile_imp (List.mem_reverse.mp hc))
  have hcore : slugWords l [] =
      slugWords ((m.reverse.dropWhile p).reverse) [] := by
    calc slugWords l []
        = slugWords (l.takeWhile p ++ m) [] := by rw [hdec1]
      _ = slugWords m [] := slugWords_append_left _ _ hws1
      _ = slugWords ((m.reverse.dropWhile p).reverse ++ (m.reverse.takeWhile p).reverse) [] := by
            rw [← hm2]
      _ = slugWords ((m.reverse.dropWhile p).reverse) [] :=
            slugWords_append_right _ _ hws2 []
  simp [hcore]

theorem spanOf_eq_specSpan (l : List Node) : spanOf l = specSpanOf l := by
  induction l with
  | nil => rfl
  | cons el rest ih =>
    cases el with
    | element t a cs =>
      by_cases ht : t = "h1"
      · subst ht
        simp [spanOf, specSpanOf, isTagNode, Node.name, List.filter_cons]
      · simp [spanOf, specSpanOf, isTagNode, Node.name, List.filter_cons, ht, ih]
    | text s => simpa [spanOf, specSpanOf, isTagNode, List.filter_cons] using ih
    | comment s => simpa [spanOf, specSpanOf, isTagNode, List.filter_cons] using ih

theorem innerLoop_eq_processSpan (l : List Node) : ∀ stats c,
    innerLoop stats c l = processSpan stats c (spanOf l) := by
  induction l with
  | nil => intro stats c; rfl
  | cons el rest ih =>
    intro stats c
    cases el with
    | element t a cs =>
      by_cases ht : t = "h1"
      · subst ht
        simp [innerLoop, spanOf, isTagNode, Node.name, processSpan]
      · simp only [innerLoop, spanOf, isTagNode, Node.name, ht, Bool.not_true,
          Bool.not_false, if_false, if_true, beq_iff_eq, Option.some.injEq]
        cases h : addThisElement stats c (.element t a cs) with
        | error e => simp [processSpan, h, ht]
        | ok p =>
          cases p with
          | mk s2 c2 => simp [processSpan, h, ht, ih]
    | text s => simpa [innerLoop, spanOf, isTagNode] using ih stats c
    | comment s => simpa [innerLoop, spanOf, isTagNode] using ih stats c


theorem tallyGet_cons (kv : Option String × Nat) (d : Tally) (nm : Option String) :
    tallyGet (kv :: d) nm = if kv.fst == nm then kv.snd else tallyGet d nm := by
  by_cases h : (kv.fst == nm) = true <;> simp [tallyGet, List.find?, h]

theorem tallyGet_any_false (d : Tally) (nm : Option String)
    (h : d.any (fun kv => kv.fst == nm) = false) : tallyGet d nm = 0 := by
  induction d with
  | nil => rfl
  | cons kv d ih =>
    simp only [List.any_cons, Bool.or_eq_false_iff] at h
    rw [tallyGet_cons, if_neg (by simp [h.1]), ih h.2]

theorem tallyGet_append_new (d : Tally) (nm : Option String)
    (h : d.any (fun kv => kv.fst == nm) = false) :
    tallyGet (d ++ [(nm, 1)]) nm = 1 := by
  induction d with
  | nil => simp [tallyGet, List.find?]
  | cons kv d ih =>
    simp only [List.any_cons, Bool.or_eq_false_iff] at h
    rw [List.cons_append, tallyGet_cons, if_neg (by simp [h.1]), ih h.2]

theorem tallyGet_map_self (d : Tally) (nm : Option String)
    (h : d.any (fun kv => kv.fst == nm) = true) :
    tallyGet (d.map (fun kv => if kv.fst == nm then (kv.fst, kv.snd + 1) else kv)) nm
      = tallyGet d nm + 1 := by
  induction d with
  | nil => simp at h
  | cons kv d ih =>
    by_cases h1 : (kv.fst == nm) = true
    · rw [List.map_cons, tallyGet_cons, tallyGet_cons]
      simp [h1]
    · simp only [List.any_cons, h1, Bool.false_or] at h
      rw [List.map_cons, tallyGet_cons, tallyGet_cons, if_neg (by simp [h1]),
        if_neg (by simp [h1]), ih h]

theorem tallyGet_map_other (d : Tally) (nm k : Option String)
    (hk : (k == nm) = false) :
    tallyGet (d.map (fun kv => if kv.fst == nm then (kv.fst, kv.snd + 1) else kv)) k
      = tallyGet d k := by
  induction d with
  | nil => rfl
  | cons kv d ih =>
    by_cases h1 : (kv.fst == nm) = true
    · have hfk : (kv.fst == k) = false := by
        have h2 : kv.fst = nm := beq_iff_eq.mp h1
        have h3 : ¬ k = nm := by simpa using (beq_eq_false_iff_ne (a := k) (b := nm)).mp hk
        subst h2
        exact beq_eq_false_iff_ne.mpr (fun hkk => h3 hkk.symm)
      rw [List.map_cons, tallyGet_cons, tallyGet_cons, if_pos h1]
      simp only [hfk, if_false]
      exact ih
    · rw [List.map_cons, tallyGet_cons, tallyGet_cons, if_neg h1]
      by_cases h2 : (kv.fst == k) = true
      · rw [if_pos h2, if_pos h2]
      · rw [if_neg h2, if_neg h2]
        exact ih

theorem tallyGet_append_other (d : Tally) (nm k : Option String)
    (hk : (k == nm) = false) :
    tallyGet (d ++ [(nm, 1)]) k = tallyGet d k := by
  induction d with
  | nil =>
    have h3 : ¬ k = nm := by simpa using (beq_eq_false_iff_ne (a := k) (b := nm)).mp hk
    have : (nm == k) = false := beq_eq_false_iff_ne.mpr (fun hnk => h3 hnk.symm)
    simp [tallyGet, List.find?, this]
  | cons kv d ih =>
    rw [List.cons_append, tallyGet_cons, tallyGet_cons]
    by_cases h2 : (kv.fst == k) = true
    · rw [if_pos h2, if_pos h2]
    · rw [if_neg h2, if_neg h2]
      exact ih

/-- Bumping the tally for a key raises exactly that key's count by one. -/
theorem tallyGet_countThisTag_self (d : Tally) (nm : Option String) :
    tallyGet (countThisTag d nm) nm = tallyGet d nm + 1 := by
  unfold countThisTag
  by_cases h : (d.any (fun kv => kv.fst == nm)) = true
  · rw [if_pos h, tallyGet_map_self d nm h]
  · have hf : (d.any (fun kv => kv.fst == nm)) = false := by
      rwa [Bool.not_eq_true] at h
    rw [if_neg h, tallyGet_append_new d nm hf, tallyGet_any_false d nm hf]

/-- Bumping the tally for a key leaves every other key's count unchanged. -/
theorem tallyGet_countThisTag_other (d : Tally) (nm k : Option String)
    (hk : (k == nm) = false) : tallyGet (countThisTag d nm) k = tallyGet d k := by
  unfold countThisTag
  by_cases h : (d.any (fun kv => kv.fst == nm)) = true
  · rw [if_pos h, tallyGet_map_other d nm k hk]
  · rw [if_neg h, tallyGet_append_other d nm k hk]

theorem nameInValid_iff (nm : Option String) :
    nameInValid nm = true ↔ nm = some "p" := by
  cases nm with
  | none => simp [nameInValid]
  | some t =>
    simp only [nameInValid, VALID_ELEMENTS, List.contains, Option.some.injEq]
    constructor
    · intro h
      simpa [beq_iff_eq] using h
    · intro h
      simp [h]

/-- Unfolding of add_this_element for a rejected element (name not in
VALID_ELEMENTS): the invalid tally is bumped under the element's name,
everything else, the topic included, is untouched. -/
theorem addThisElement_invalid (stats : Stats) (c : ChoppedH1) (el : Node)
    (h : nameInValid (Node.name el) = false) :
    addThisElement stats c el = .ok
      ({ stats with
         element_count := stats.element_count + 1,
         invalid_tag_count := stats.invalid_tag_count + 1,
         invalid_tag_dict := countThisTag stats.invalid_tag_dict (Node.name el) }, c) := by
  simp [addThisElement, h]

/-- Unfolding of add_this_element for a paragraph: the valid tally is
bumped for "p" and then once per text-carrying child (inside
`childLoop`), and the rebuilt paragraph is appended to the body. -/
theorem addThisElement_p (stats : Stats) (c : ChoppedH1)
    (a : List (String × String)) (cs : Forest) :
    addThisElement stats c (.element "p" a cs) =
      .ok ({ stats with
             element_count := stats.element_count + 1,
             parsed_tag_count := stats.parsed_tag_count + 1,
             valid_tag_dict :=
               (childLoop (countThisTag stats.valid_tag_dict (some "p")) cs).fst },
           c.appendBody (newTagWithString "p"
             (String.intercalate " "
               (childLoop (countThisTag stats.valid_tag_dict (some "p")) cs).snd))) := by
  rcases hcl : childLoop (countThisTag stats.valid_tag_dict (some "p")) cs with ⟨d, strs⟩
  simp [addThisElement, nameInValid, VALID_ELEMENTS, Node.name, hcl]

/-- add_this_element never aborts, and it never touches the title fields
or the index of the topic. -/
theorem addThisElement_ok (stats : Stats) (c : ChoppedH1) (el : Node) :
    ∃ s2 c2, addThisElement stats c el = .ok (s2, c2) ∧
      c2.index = c.index ∧ c2.string = c.string ∧ c2.slug = c.slug := by
  by_cases h : nameInValid (Node.name el) = true
  · have hel : el.name = some "p" := (nameInValid_iff _).mp h
    rcases el with ⟨t, a, cs⟩ | s | s
    · have ht : t = "p" := by simpa [Node.name] using hel
      subst ht
      exact ⟨_, _, addThisElement_p stats c a cs, rfl, rfl, rfl⟩
    · simp [Node.name] at hel
    · simp [Node.name] at hel
  · have hf : nameInValid (Node.name el) = false := by rwa [Bool.not_eq_true] at h
    exact ⟨_, c, addThisElement_invalid stats c el hf, rfl, rfl, rfl⟩

/-- Folding add_this_element over a span never aborts and preserves the
topic identity fields. -/
theorem processSpan_ok (l : List Node) : ∀ stats c, ∃ s2 c2,
    processSpan stats c l = .ok (s2, c2) ∧
      c2.index = c.index ∧ c2.string = c.string ∧ c2.slug = c.slug := by
  induction l with
  | nil => intro stats c; exact ⟨stats, c, rfl, rfl, rfl, rfl⟩
  | cons el rest ih =>
    intro stats c
    obtain ⟨s2, c2, he, hi, hs, hg⟩ := addThisElement_ok stats c el
    obtain ⟨s3, c3, he2, hi2, hs2, hg2⟩ := ih s2 c2
    exact ⟨s3, c3, by simp [processSpan, he, he2], hi2.trans hi,
      hs2.trans hs, hg2.trans hg⟩

/-- The inner span loop never aborts and preserves the topic identity
fields. -/
theorem innerLoop_ok (stats : Stats) (c : ChoppedH1) (l : List Node) : ∃ s2 c2,
    innerLoop stats c l = .ok (s2, c2) ∧
      c2.index = c.index ∧ c2.string = c.string ∧ c2.slug = c.slug := by
  rw [innerLoop_eq_processSpan]
  exact processSpan_ok _ stats c

/-- The child loop equals its extensional description: the strings are the
individually-trimmed strings of exactly the children whose string is
present, in child order, and the tally is bumped once per such child
under the child's name. -/
theorem childLoop_spec : ∀ (cs : Forest) (d : Tally),
    childLoop d cs =
      ((cs.toList.filter (fun ch => (Node.string ch).isSome)).foldl
          (fun acc ch => countThisTag acc (Node.name ch)) d,
       cs.toList.filterMap (fun ch => (Node.string ch).map pyStrip))
  | .nil, _ => rfl
  | .cons ch rest, d => by
    have ih := childLoop_spec rest
    cases h : Node.string ch with
    | none =>
      simp [childLoop, h, Forest.toList, List.filter_cons, List.filterMap_cons, ih]
    | some s =>
      simp [childLoop, h, Forest.toList, List.filter_cons, List.filterMap_cons, ih]

/-- Unfolding of the ChoppedH1 constructor when the heading has a string. -/
theorem mkChoppedH1_some (h1Tag : Node) (s : String) (index : Nat)
    (h : Node.string h1Tag = some s) :
    mkChoppedH1 h1Tag index = some
      { string := pyStrip s, slug := slugify (pyStrip s), index := index,
        topic := mkTopicTree index (pyStrip s) } := by
  simp [mkChoppedH1, h]

/-- The chopping loop never aborts; the topics it returns correspond one
to one, in order, to exactly the accepted positions, carrying the running
indices idx+1, idx+2, ... and the stripped heading texts. -/
theorem chopLoop_spec (ps : List Nat) (roots : Forest) (dt : String) :
    ∀ (stats : Stats) (idx : Nat), ∃ st cs,
      chopLoop roots dt stats idx ps = .ok (st, cs) ∧
      cs.map (fun c => c.index) =
        List.range' (idx + 1) ((ps.filter (fun i => specAccepts dt (nodeAt roots i))).length) ∧
      cs.map (fun c => c.string) =
        (ps.filter (fun i => specAccepts dt (nodeAt roots i))).map
          (fun i => pyStrip (textOf (nodeAt roots i))) := by
  induction ps with
  | nil => intro stats idx; exact ⟨stats, [], rfl, by simp, by simp⟩
  | cons i rest ih =>
    intro stats idx
    cases hs : Node.string (nodeAt roots i) with
    | none =>
      have hacc : specAccepts dt (nodeAt roots i) = false := by
        simp [specAccepts, hs]
      obtain ⟨st, cs, he, h1, h2⟩ := ih stats idx
      refine ⟨st, cs, ?_, ?_, ?_⟩
      · simpa [chopLoop, hs] using he
      · simpa [List.filter_cons, hacc] using h1
      · simpa [List.filter_cons, hacc] using h2
    | some s =>
      by_cases hcond : (pyIsSpace s || (slugify s == dt)) = true
      · have hacc : specAccepts dt (nodeAt roots i) = false := by
          simp only [specAccepts, hs]
          rw [← Bool.not_or, hcond]
          rfl
        obtain ⟨st, cs, he, h1, h2⟩ := ih stats idx
        refine ⟨st, cs, ?_, ?_, ?_⟩
        · simpa [chopLoop, hs, hcond] using he
        · simpa [List.filter_cons, hacc] using h1
        · simpa [List.filter_cons, hacc] using h2
      · have hcondf : (pyIsSpace s || (slugify s == dt)) = false := by
          rwa [Bool.not_eq_true] at hcond
        have hacc : specAccepts dt (nodeAt roots i) = true := by
          simp only [specAccepts, hs]
          rw [← Bool.not_or, hcondf]
          rfl
        have hmk := mkChoppedH1_some (nodeAt roots i) s (idx + 1) hs
        obtain ⟨s2, c2, hinner, hidx, hstr, _⟩ :=
          innerLoop_ok stats
            { string := pyStrip s, slug := slugify (pyStrip s), index := idx + 1,
              topic := mkTopicTree (idx + 1) (pyStrip s) }
            (nextElems roots i)
        obtain ⟨st, cs, he, h1, h2⟩ := ih s2 (idx + 1)
        refine ⟨st, c2 :: cs, ?_, ?_, ?_⟩
        · simp [chopLoop, hs, hcondf, hmk, hinner, he]
        · rw [List.map_cons, h1]
          simp only [List.filter_cons, hacc, if_true, List.length_cons]
          rw [List.range'_succ]
          simp [hidx]
        · rw [List.map_cons, h2]
          simp only [List.filter_cons, hacc, if_true, List.map_cons]
          simp [hstr, textOf, hs]

/-- The document title of `main` is the slug of the text of the first
heading whose string is present and not whitespace-only (none when no
such heading exists, in which case the script dies with an IndexError). -/
theorem docTitleOf_eq_spec (h1s : List Node) :
    docTitleOf h1s = (firstNonBlankHeading h1s).map (fun h => slugify (textOf h)) := by
  induction h1s with
  | nil => rfl
  | cons h rest ih =>
    cases hs : Node.string h with
    | none =>
      simp only [docTitleOf, h1StringsLoop, hs, firstNonBlankHeading, List.find?] at ih ⊢
      simpa [hs] using ih
    | some s =>
      by_cases hsp : pyIsSpace s = true
      · simp only [docTitleOf, h1StringsLoop, hs, hsp, Bool.not_true, if_false,
          firstNonBlankHeading, List.find?] at ih ⊢
        simpa [hs, hsp] using ih
      · have hspf : pyIsSpace s = false := by rwa [Bool.not_eq_true] at hsp
        simp [docTitleOf, h1StringsLoop, hs, hspf, firstNonBlankHeading, List.find?,
          textOf, slugify_pyStrip]

theorem promoteTagChain (t : String) :
    (if (if (if (if t == "h2" then "h1" else t) == "h3" then "h1"
        else if t == "h2" then "h1" else t) == "h4" then "h1"
        else if (if t == "h2" then "h1" else t) == "h3" then "h1"
        else if t == "h2" then "h1" else t) == "h5" then "h1"
      else if (if (if t == "h2" then "h1" else t) == "h3" then "h1"
        else if t == "h2" then "h1" else t) == "h4" then "h1"
        else if (if t == "h2" then "h1" else t) == "h3" then "h1"
        else if t == "h2" then "h1" else t)
      = (if promoteThese.contains t then "h1" else t) := by
  by_cases h2 : t = "h2"
  · subst h2; rfl
  · have b2 : (t == "h2") = false := beq_eq_false_iff_ne.mpr h2
    by_cases h3 : t = "h3"
    · subst h3; rfl
    · have b3 : (t == "h3") = false := beq_eq_false_iff_ne.mpr h3
      by_cases h4 : t = "h4"
      · subst h4; rfl
      · have b4 : (t == "h4") = false := beq_eq_false_iff_ne.mpr h4
        by_cases h5 : t = "h5"
        · subst h5; rfl
        · have b5 : (t == "h5") = false := beq_eq_false_iff_ne.mpr h5
          simp [b2, b3, b4, b5, promoteThese, List.contains, h2, h3, h4, h5]

mutual
/-- The four sequential renaming passes equal the spec's one simultaneous
normalization pass (node version). -/
theorem promoteChain_eq_normalizeSpec (x : Node) :
    renameAll "h5" "h1" (renameAll "h4" "h1" (renameAll "h3" "h1" (renameAll "h2" "h1" x)))
      = normalizeSpec x := by
  cases x with
  | element t a cs =>
    simp only [renameAll, normalizeSpec, promoteChainF_eq_normalizeSpecF cs]
    rw [← promoteTagChain t]
  | text s => rfl
  | comment s => rfl
/-- The four sequential renaming passes equal the spec's one simultaneous
normalization pass (forest version). -/
theorem promoteChainF_eq_normalizeSpecF (xs : Forest) :
    renameAllForest "h5" "h1" (renameAllForest "h4" "h1"
      (renameAllForest "h3" "h1" (renameAllForest "h2" "h1" xs)))
      = normalizeSpecForest xs := by
  cases xs with
  | nil => rfl
  | cons c cs =>
    simp only [renameAllForest, normalizeSpecForest,
      promoteChain_eq_normalizeSpec c, promoteChainF_eq_normalizeSpecF cs]
end

/-- The promotion loop of `main` is the spec's normalization pass. -/
theorem promoteAll_eq_normalizeSpec (roots : Forest) :
    promoteAll roots = normalizeSpecForest roots := by
  show renameAllForest "h5" "h1" (renameAllForest "h4" "h1"
    (renameAllForest "h3" "h1" (renameAllForest "h2" "h1" roots))) = _
  exact promoteChainF_eq_normalizeSpecF roots

mutual
theorem flattenNode_normalizeSpec (x : Node) :
    flattenNode (normalizeSpec x) = (flattenNode x).map normalizeSpec := by
  cases x with
  | element t a cs =>
    simp only [normalizeSpec, flattenNode, List.map_cons,
      flattenForest_normalizeSpec cs]
  | text s => rfl
  | comment s => rfl
theorem flattenForest_normalizeSpec (xs : Forest) :
    flattenForest (normalizeSpecForest xs) = (flattenForest xs).map normalizeSpec := by
  cases xs with
  | nil => rfl
  | cons c cs =>
    simp only [normalizeSpecForest, flattenForest, List.map_append,
      flattenNode_normalizeSpec c, flattenForest_normalizeSpec cs]
end

mutual
theorem shapeOf_normalizeSpec (x : Node) : shapeOf (normalizeSpec x) = shapeOf x := by
  cases x with
  | element t a cs =>
    simp only [normalizeSpec, shapeOf, shapeOfForest_normalizeSpec cs]
  | text s => rfl
  | comment s => rfl
theorem shapeOfForest_normalizeSpec (xs : Forest) :
    shapeOfForest (normalizeSpecForest xs) = shapeOfForest xs := by
  cases xs with
  | nil => rfl
  | cons c cs =>
    simp only [normalizeSpecForest, shapeOfForest, shapeOf_normalizeSpec c,
      shapeOfForest_normalizeSpec cs]
end

theorem name_normalizeSpec_h1 (n : Node) :
    ((normalizeSpec n).name == some "h1") =
      ((Node.name n == some "h1") || ((Node.name n == some "h2") ||
        ((Node.name n == some "h3") || ((Node.name n == some "h4") ||
          (Node.name n == some "h5"))))) := by
  cases n with
  | element t a cs =>
    show ((if promoteThese.contains t then "h1" else t) == "h1")
      = ((t == "h1") || ((t == "h2") || ((t == "h3") || ((t == "h4") || (t == "h5")))))
    by_cases h2 : t = "h2"
    · subst h2; rfl
    · by_cases h3 : t = "h3"
      · subst h3; rfl
      · by_cases h4 : t = "h4"
        · subst h4; rfl
        · by_cases h5 : t = "h5"
          · subst h5; rfl
          · have hc : promoteThese.contains t = false := by
              simp [promoteThese, List.contains, h2, h3, h4, h5]
            rw [hc]
            simp [beq_eq_false_iff_ne.mpr h2, beq_eq_false_iff_ne.mpr h3,
              beq_eq_false_iff_ne.mpr h4, beq_eq_false_iff_ne.mpr h5]
  | text s => rfl
  | comment s => rfl

theorem name_normalizeSpec_sub (n : Node) (sub : String)
    (hmem : promoteThese.contains sub = true) (hne : ("h1" == sub) = false) :
    ((normalizeSpec n).name == some sub) = false := by
  cases n with
  | element t a cs =>
    show ((if promoteThese.contains t then "h1" else t) == sub) = false
    cases hc : promoteThese.contains t with
    | true => simpa using hne
    | false =>
      cases hb : (t == sub) with
      | true =>
        have : t = sub := beq_iff_eq.mp hb
        rw [this, hmem] at hc
        exact absurd hc (by simp)
      | false => simpa using hb
  | text s => rfl
  | comment s => rfl

theorem countP_or_disjoint (p q : Node → Bool) (l : List Node)
    (h : ∀ x, p x = true → q x = false) :
    l.countP (fun x => p x || q x) = l.countP p + l.countP q := by
  induction l with
  | nil => rfl
  | cons a l ih =>
    rw [List.countP_cons, List.countP_cons, List.countP_cons, ih]
    cases hp : p a with
    | true => simp [hp, h a hp]; omega
    | false => cases hq : q a with
      | true => simp [hp, hq]; omega
      | false => simp [hp, hq]

theorem countTag_eq_countP (t : String) (roots : Forest) :
    countTag t roots = (docOrder roots).countP (fun n => Node.name n == some t) := by
  rw [countTag, findAllTag, List.countP_eq_length_filter]

theorem name_beq_disjoint (x : Node) (t s : String) (hts : (t == s) = false)
    (hx : (Node.name x == some t) = true) : (Node.name x == some s) = false := by
  have h1 : Node.name x = some t := by
    cases hn : Node.name x with
    | none => rw [hn] at hx; exact absurd hx (by simp)
    | some u =>
      rw [hn] at hx
      have : u = t := by simpa using hx
      rw [this]
  rw [h1]
  simpa using hts

theorem countTag_normalize_sub (roots : Forest) (sub : String)
    (hmem : promoteThese.contains sub = true) (hne : ("h1" == sub) = false) :
    countTag sub (normalizeSpecForest roots) = 0 := by
  rw [countTag_eq_countP]
  show (flattenForest (normalizeSpecForest roots)).countP _ = 0
  rw [flattenForest_normalizeSpec, List.countP_map]
  apply List.countP_eq_zero.mpr
  intro a _
  simp [Function.comp, name_normalizeSpec_sub a sub hmem hne]

theorem countTag_normalize_h1 (roots : Forest) :
    countTag "h1" (normalizeSpecForest roots) =
      countTag "h1" roots + countTag "h2" roots + countTag "h3" roots +
        countTag "h4" roots + countTag "h5" roots := by
  rw [countTag_eq_countP, countTag_eq_countP, countTag_eq_countP,
    countTag_eq_countP, countTag_eq_countP, countTag_eq_countP]
  show (flattenForest (normalizeSpecForest roots)).countP _ = _
  rw [flattenForest_normalizeSpec, List.countP_map]
  have hcongr : (flattenForest roots).countP
      ((fun n => Node.name n == some "h1") ∘ normalizeSpec) =
      (flattenForest roots).countP (fun n =>
        (Node.name n == some "h1") || ((Node.name n == some "h2") ||
          ((Node.name n == some "h3") || ((Node.name n == some "h4") ||
            (Node.name n == some "h5"))))) := by
    apply List.countP_congr
    intro x _
    rw [Function.comp_apply, name_normalizeSpec_h1 x]
  rw [hcongr]
  rw [countP_or_disjoint _ _ _ (fun x hx =>
    by simp [name_beq_disjoint x "h1" "h2" (by decide) hx,
      name_beq_disjoint x "h1" "h3" (by decide) hx,
      name_beq_disjoint x "h1" "h4" (by decide) hx,
      name_beq_disjoint x "h1" "h5" (by decide) hx])]
  rw [countP_or_disjoint _ _ _ (fun x hx =>
    by simp [name_beq_disjoint x "h2" "h3" (by decide) hx,
      name_beq_disjoint x "h2" "h4" (by decide) hx,
      name_beq_disjoint x "h2" "h5" (by decide) hx])]
  rw [countP_or_disjoint _ _ _ (fun x hx =>
    by simp [name_beq_disjoint x "h3" "h4" (by decide) hx,
      name_beq_disjoint x "h3" "h5" (by decide) hx])]
  rw [countP_or_disjoint _ _ _ (fun x hx =>
    name_beq_disjoint x "h4" "h5" (by decide) hx)]
  simp only [docOrder]
  omega

/-- C5: after the heading-normalization step runs, every element whose
tag was h2, h3, h4 or h5 carries the h1 tag with all attributes, content
and position preserved (the promotion loop equals the spec's one
simultaneous retagging pass, and erasing tags gives back the original
document); no subordinate-heading tag remains (their find-all counts are
zero); and find-all(h1) includes every formerly subordinate heading (its
count is the old h1 count plus all subordinate counts). -/
theorem promotion_normalizes_all_subheadings (roots : Forest) :
    promoteAll roots = normalizeSpecForest roots
    ∧ shapeOfForest (promoteAll roots) = shapeOfForest roots
    ∧ countTag "h2" (promoteAll roots) = 0
    ∧ countTag "h3" (promoteAll roots) = 0
    ∧ countTag "h4" (promoteAll roots) = 0
    ∧ countTag "h5" (promoteAll roots) = 0
    ∧ countTag "h1" (promoteAll roots) =
        countTag "h1" roots + countTag "h2" roots + countTag "h3" roots +
          countTag "h4" roots + countTag "h5" roots := by
  have hp := promoteAll_eq_normalizeSpec roots
  refine ⟨hp, ?_, ?_, ?_, ?_, ?_, ?_⟩ <;> rw [hp]
  · exact shapeOfForest_normalizeSpec roots
  · exact countTag_normalize_sub roots "h2" (by decide) (by decide)
  · exact countTag_normalize_sub roots "h3" (by decide) (by decide)
  · exact countTag_normalize_sub roots "h4" (by decide) (by decide)
  · exact countTag_normalize_sub roots "h5" (by decide) (by decide)
  · exact countTag_normalize_h1 roots

/-- C4: the chopping loop never aborts, assigns index values only to
accepted positions in document order, and those indices are exactly
1..N with no gaps where N is the number of positions passing the
acceptance filter; a rejected heading consumes no index and produces no
topic. -/
theorem topic_indices_dense_from_one (roots : Forest) (dt : String)
    (stats : Stats) (ps : List Nat) :
    ∃ st cs, chopLoop roots dt stats 0 ps = .ok (st, cs) ∧
      cs.map (fun c => c.index) =
        List.range' 1 ((ps.filter (fun i => specAccepts dt (nodeAt roots i))).length) ∧
      cs.length = (ps.filter (fun i => specAccepts dt (nodeAt roots i))).length := by
  obtain ⟨st, cs, he, h1, _⟩ := chopLoop_spec ps roots dt stats 0
  refine ⟨st, cs, he, by simpa using h1, ?_⟩
  have := congrArg List.length h1
  simpa using this

/-- C2: for a paragraph element in a span, add_this_element accepts it:
the rebuilt paragraph's text is the space-joined, individually-trimmed
string of each immediate child whose string is present, in child order
(children carrying no string contribute no entry at all), the accepted
tally is bumped for "p" and once per contributing child under that
child's name, and the new paragraph is appended to the topic body. -/
theorem paragraph_rebuild_text (stats : Stats) (c : ChoppedH1)
    (a : List (String × String)) (cs : Forest) :
    addThisElement stats c (.element "p" a cs) =
      .ok ({ stats with
             element_count := stats.element_count + 1,
             parsed_tag_count := stats.parsed_tag_count + 1,
             valid_tag_dict :=
               (cs.toList.filter (fun ch => (Node.string ch).isSome)).foldl
                 (fun acc ch => countThisTag acc (Node.name ch))
                 (countThisTag stats.valid_tag_dict (some "p")) },
           c.appendBody (newTagWithString "p"
             (String.intercalate " "
               (cs.toList.filterMap (fun ch => (Node.string ch).map pyStrip))))) := by
  rw [addThisElement_p, childLoop_spec]

/-- C3: the document title is the slug of the text of the first heading
with present, non-whitespace-only text; a heading is accepted iff it has
text, that text is not whitespace-only, and its slug differs from the
document title slug; an accepted heading's slug never equals the title
slug; and the topics the chopping loop builds are exactly those of the
accepted positions, in document order. -/
theorem doc_title_and_heading_acceptance (h1s : List Node) (roots : Forest)
    (dt : String) (stats : Stats) (ps : List Nat) (h : Node) :
    docTitleOf h1s = (firstNonBlankHeading h1s).map (fun x => slugify (textOf x))
    ∧ (specAccepts dt h = true ↔
        (∃ s, Node.string h = some s ∧ pyIsSpace s = false ∧ (slugify s == dt) = false))
    ∧ (specAccepts dt h && (slugify (textOf h) == dt)) = false
    ∧ (∃ st cs, chopLoop roots dt stats 0 ps = .ok (st, cs) ∧
        cs.map (fun c => c.string) =
          (ps.filter (fun i => specAccepts dt (nodeAt roots i))).map
            (fun i => pyStrip (textOf (nodeAt roots i)))) := by
  refine ⟨docTitleOf_eq_spec h1s, ?_, ?_, ?_⟩
  · cases hs : Node.string h with
    | none => simp [specAccepts, hs]
    | some s =>
      simp only [specAccepts, hs, Bool.and_eq_true, Bool.not_eq_true', Option.some.injEq]
      constructor
      · rintro ⟨h1, h2⟩
        exact ⟨s, rfl, h1, h2⟩
      · rintro ⟨s2, hs2, h1, h2⟩
        subst hs2
        exact ⟨h1, h2⟩
  · cases hs : Node.string h with
    | none => simp [specAccepts, hs]
    | some s =>
      simp only [specAccepts, hs, textOf, Option.getD_some]
      cases hb : (slugify s == dt) <;> simp [hb]
  · obtain ⟨st, cs, he, _, h2⟩ := chopLoop_spec ps roots dt stats 0
    exact ⟨st, cs, he, h2⟩

/-- C1: the span walked for a heading is exactly the element-kind nodes
of the forward document-order traversal that starts at the heading
(whose own subtree comes first in that traversal), up to but not
including the first h1 element encountered; the heading itself is not
part of the walk (the traversal suffix starts strictly after it), and
the inner loop processes exactly that span. -/
theorem span_walk_document_order (roots : Forest) (i : Nat)
    (stats : Stats) (c : ChoppedH1)
    (hh : Node.name (nodeAt roots i) = some "h1")
    (hi : i < (docOrder roots).length) :
    spanOf (nextElems roots i) = specSpanOf (nextElems roots i)
    ∧ innerLoop stats c (nextElems roots i) =
        processSpan stats c (spanOf (nextElems roots i))
    ∧ docOrder roots =
        (docOrder roots).take i ++ nodeAt roots i :: nextElems roots i := by
  refine ⟨spanOf_eq_specSpan _, innerLoop_eq_processSpan _ stats c, ?_⟩
  have hdrop : (docOrder roots).drop i = nodeAt roots i :: (docOrder roots).drop (i + 1) := by
    rw [List.drop_eq_getElem_cons hi]
    congr 1
    rw [nodeAt, List.getD_eq_getElem?_getD, List.getElem?_eq_getElem hi]
    rfl
  calc docOrder roots
      = (docOrder roots).take i ++ (docOrder roots).drop i :=
        (List.take_append_drop i (docOrder roots)).symm
    _ = (docOrder roots).take i ++ nodeAt roots i :: nextElems roots i := by
        rw [hdrop]; rfl

/-- Witness for C1 at a concrete document: the heading at position 0 of
exDoc1. -/
theorem span_walk_document_order_witness :
    Node.name (nodeAt exDoc1 0) = some "h1"
    ∧ 0 < (docOrder exDoc1).length
    ∧ (spanOf (nextElems exDoc1 0) = specSpanOf (nextElems exDoc1 0)
       ∧ innerLoop exStats exChopped (nextElems exDoc1 0) =
           processSpan exStats exChopped (spanOf (nextElems exDoc1 0))
       ∧ docOrder exDoc1 =
           (docOrder exDoc1).take 0 ++ nodeAt exDoc1 0 :: nextElems exDoc1 0) :=
  ⟨rfl, by decide,
    span_walk_document_order exDoc1 0 exStats exChopped rfl (by decide)⟩

/-- C6: for a heading whose string is present, the constructed topic tree
has exactly the fixed shape: a "topic" root whose id is "tbd__" plus the
index zero-padded to five digits and whose namespace attribute is the
DITA architecture URI, then in order a "title" child holding the trimmed
heading text, an empty short-description child, a "prolog" child with
exactly one "author" child holding the fixed literal, and an empty
"body" child that accumulates the output elements. -/
theorem topic_tree_fixed_shape (h1Tag : Node) (s : String) (index : Nat)
    (hs : Node.string h1Tag = some s) :
    mkChoppedH1 h1Tag index = some
      { string := pyStrip s, slug := slugify (pyStrip s), index := index,
        topic := Node.element "topic"
          [("id", "tbd__" ++ pad5 index), ("xmlns:ditaarch", XMLNS_DITAARCH)]
          (Forest.cons
            (Node.element "title" [] (Forest.cons (Node.text (pyStrip s)) Forest.nil))
          (Forest.cons
            (Node.element "shortdesc" [] (Forest.cons (Node.text "") Forest.nil))
          (Forest.cons
            (Node.element "prolog" []
              (Forest.cons
                (Node.element "author" []
                  (Forest.cons (Node.text "TurboChopper!") Forest.nil))
                Forest.nil))
          (Forest.cons (Node.element "body" [] Forest.nil)
            Forest.nil)))) } := by
  rw [mkChoppedH1_some h1Tag s index hs]
  rfl

/-- Witness for C6 at a concrete heading and index. -/
theorem topic_tree_fixed_shape_witness :
    Node.string exTitleHeading = some "  Setup  "
    ∧ mkChoppedH1 exTitleHeading 3 = some
      { string := pyStrip "  Setup  ", slug := slugify (pyStrip "  Setup  "),
        index := 3,
        topic := Node.element "topic"
          [("id", "tbd__" ++ pad5 3), ("xmlns:ditaarch", XMLNS_DITAARCH)]
          (Forest.cons
            (Node.element "title" []
              (Forest.cons (Node.text (pyStrip "  Setup  ")) Forest.nil))
          (Forest.cons
            (Node.element "shortdesc" [] (Forest.cons (Node.text "") Forest.nil))
          (Forest.cons
            (Node.element "prolog" []
              (Forest.cons
                (Node.element "author" []
                  (Forest.cons (Node.text "TurboChopper!") Forest.nil))
                Forest.nil))
          (Forest.cons (Node.element "body" [] Forest.nil)
            Forest.nil)))) } :=
  ⟨rfl, topic_tree_fixed_shape exTitleHeading "  Setup  " 3 rfl⟩

/-- C7: an element whose tag is not the single allowed tag "p" is
discarded: processing it bumps the rejected count and the rejected tally
entry for exactly its own tag name (every other key is unchanged),
leaves the accepted tally and counts unchanged, and appends nothing to
the topic (the ChoppedH1 is returned untouched). -/
theorem invalid_tag_rejected (stats : Stats) (c : ChoppedH1) (t : String)
    (a : List (String × String)) (cs : Forest) (ht : (t == "p") = false) :
    addThisElement stats c (.element t a cs) = .ok
      ({ stats with
         element_count := stats.element_count + 1,
         invalid_tag_count := stats.invalid_tag_count + 1,
         invalid_tag_dict := countThisTag stats.invalid_tag_dict (some t) }, c)
    ∧ tallyGet (countThisTag stats.invalid_tag_dict (some t)) (some t)
        = tallyGet stats.invalid_tag_dict (some t) + 1
    ∧ (∀ k, (k == some t) = false →
        tallyGet (countThisTag stats.invalid_tag_dict (some t)) k
          = tallyGet stats.invalid_tag_dict k) := by
  have hv : nameInValid (Node.name (.element t a cs)) = false := by
    have ht2 : ¬ t = "p" := by simpa using (beq_eq_false_iff_ne (a := t) (b := "p")).mp ht
    simp [nameInValid, Node.name, VALID_ELEMENTS, List.contains, ht2]
  refine ⟨?_, tallyGet_countThisTag_self _ _,
    fun k hk => tallyGet_countThisTag_other _ _ _ hk⟩
  simpa [Node.name] using addThisElement_invalid stats c (.element t a cs) hv

/-- Witness for C7 at a concrete rejected element (a div). -/
theorem invalid_tag_rejected_witness :
    (("div" == "p") = false)
    ∧ (addThisElement exStats exChopped (.element "div" [] .nil) = .ok
        ({ exStats with
           element_count := exStats.element_count + 1,
           invalid_tag_count := exStats.invalid_tag_count + 1,
           invalid_tag_dict := countThisTag exStats.invalid_tag_dict (some "div") },
         exChopped)
       ∧ tallyGet (countThisTag exStats.invalid_tag_dict (some "div")) (some "div")
           = tallyGet exStats.invalid_tag_dict (some "div") + 1
       ∧ (∀ k, (k == some "div") = false →
           tallyGet (countThisTag exStats.invalid_tag_dict (some "div")) k
             = tallyGet exStats.invalid_tag_dict k)) :=
  ⟨rfl, invalid_tag_rejected exStats exChopped "div" [] .nil rfl⟩

/-- C9: the defensive "Unexpected tag received!" abort is unreachable:
an element passing the allowed-tag classification necessarily has tag
"p" (VALID_ELEMENTS holds only "p"), the dispatch takes the paragraph
branch and returns normally, and no error is ever produced. -/
theorem unexpected_tag_branch_unreachable (stats : Stats) (c : ChoppedH1)
    (el : Node) (h : nameInValid (Node.name el) = true) :
    Node.name el = some "p"
    ∧ (∃ st c2, addThisElement stats c el = .ok (st, c2))
    ∧ ∀ e, addThisElement stats c el ≠ .error e := by
  obtain ⟨st, c2, he, _, _, _⟩ := addThisElement_ok stats c el
  refine ⟨(nameInValid_iff _).mp h, ⟨st, c2, he⟩, fun e hee => ?_⟩
  rw [he] at hee
  exact Except.noConfusion hee

/-- Witness for C9 at a concrete paragraph element. -/
theorem unexpected_tag_branch_unreachable_witness :
    nameInValid (Node.name (Node.element "p" [] .nil)) = true
    ∧ (Node.name (Node.element "p" [] .nil) = some "p"
       ∧ (∃ st c2, addThisElement exStats exChopped (Node.element "p" [] .nil) = .ok (st, c2))
       ∧ ∀ e, addThisElement exStats exChopped (Node.element "p" [] .nil) ≠ .error e) :=
  ⟨rfl, unexpected_tag_branch_unreachable exStats exChopped (Node.element "p" [] .nil) rfl⟩

theorem h1StringsLoop_skip_none (pre post : List Node) (h : Node)
    (hs : Node.string h = none) :
    h1StringsLoop (pre ++ h :: post) = h1StringsLoop (pre ++ post) := by
  induction pre with
  | nil => simp [h1StringsLoop, hs]
  | cons x xs ih =>
    cases hx : Node.string x with
    | none => simp [List.cons_append, h1StringsLoop, hx, ih]
    | some s =>
      by_cases hsp : pyIsSpace s = true <;>
        simp [List.cons_append, h1StringsLoop, hx, hsp, ih]

/-- C10: a heading whose bs4 string is None (for example a heading with
mixed text and nested elements) is treated exactly like a heading with
no text: the h1-strings loop skips it, so it never feeds the
document-title computation; and the chopping loop skips its position,
producing no topic and consuming no index — the run over the remaining
positions is unchanged. -/
theorem stringless_heading_skipped (pre post : List Node) (h : Node)
    (roots : Forest) (dt : String) (stats : Stats) (idx i : Nat)
    (rest : List Nat) (hs : Node.string h = none)
    (hi : Node.string (nodeAt roots i) = none) :
    h1StringsLoop (pre ++ h :: post) = h1StringsLoop (pre ++ post)
    ∧ docTitleOf (pre ++ h :: post) = docTitleOf (pre ++ post)
    ∧ chopLoop roots dt stats idx (i :: rest) = chopLoop roots dt stats idx rest := by
  refine ⟨h1StringsLoop_skip_none pre post h hs, ?_, ?_⟩
  · rw [docTitleOf, docTitleOf, h1StringsLoop_skip_none pre post h hs]
  · simp [chopLoop, hi]

/-- Witness for C10 at a concrete mixed-content heading whose descendant
text is non-blank. -/
theorem stringless_heading_skipped_witness :
    Node.string exMixedHeading = none
    ∧ descendantText exMixedHeading = "Mixed bold"
    ∧ pyIsSpace (descendantText exMixedHeading) = false
    ∧ Node.string (nodeAt exMixedDoc 0) = none
    ∧ (h1StringsLoop ([] ++ exMixedHeading :: []) = h1StringsLoop ([] ++ [])
       ∧ docTitleOf ([] ++ exMixedHeading :: []) = docTitleOf ([] ++ [])
       ∧ chopLoop exMixedDoc "title" exStats 0 (0 :: []) =
           chopLoop exMixedDoc "title" exStats 0 []) :=
  ⟨rfl, rfl, rfl, rfl,
    stringless_heading_skipped [] [] exMixedHeading exMixedDoc "title" exStats 0 0 [] rfl rfl⟩

/-- C8 (amended): when the document has at least two top-level parsed
nodes, the run reports the structural error and aborts (returning
nothing) exactly when the first two nodes are not [comment, element] in
that order, and otherwise the check passes and the run proceeds with the
rest of the pipeline; a document with fewer than two top-level nodes
also aborts before any processing, but with the IndexError of the
list[0]/list[1] access rather than the structural-error report. -/
theorem structural_check_first_two_nodes (n0 n1 : Node) (rest : Forest) :
    runChop Forest.nil = .error RunError.indexError
    ∧ (∀ n, runChop (Forest.cons n Forest.nil) = .error RunError.indexError)
    ∧ runChop (Forest.cons n0 (Forest.cons n1 rest)) =
        (if isCommentNode n0 && isTagNode n1 then
          afterStructureCheck (Forest.cons n0 (Forest.cons n1 rest))
        else .error RunError.structural) :=
  ⟨rfl, fun _ => rfl, rfl⟩

/-- Counterexample for C8 as stated: the empty parse (no top-level
nodes) does not have [comment, element] as its first two nodes, yet the
run aborts with an IndexError, not with the structural-error report. -/
theorem structural_check_counterexample :
    runChop Forest.nil = Except.error RunError.indexError
    ∧ runChop Forest.nil ≠ Except.error RunError.structural :=
  ⟨rfl, fun h => RunError.noConfusion (Except.error.inj h)⟩
